import Mathlib

/-!
Shallow embedding of the student attendance bookkeeping tool (`src/app.py`).

Python dictionaries are modelled as association lists with Python's
insert-or-overwrite assignment semantics (`dictSet`): assigning to an existing
key replaces its value in place, assigning to a fresh key appends at the end
(Python dicts preserve insertion order).  Floating-point division in
`get_attendance_percentage` is modelled over `ℚ`.  The CSV layer is modelled at
the row level: `save_to_csv` produces the list of rows (each a list of string
fields) that `csv.writer` would emit, and `load_from_csv` consumes such a list,
mirroring `csv.reader`.  The SQLite backend (`AttendanceDB`) is modelled with
its three tables as association lists keyed by their primary keys; note that
the source never issues `PRAGMA foreign_keys = ON`, so the declared foreign key
on `attendance(student_id)` is not enforced at runtime, and the embedding
faithfully reflects that.
-/

/-- Membership test for a key in an association list (Python `k in d`). -/
def containsKey {κ α : Type} [DecidableEq κ] (l : List (κ × α)) (k : κ) : Bool :=
  l.any (fun p => decide (p.1 = k))

/-- Python dict assignment `d[k] = v`: overwrite in place if the key exists,
otherwise append at the end (insertion order preserved). -/
def dictSet {κ α : Type} [DecidableEq κ] (l : List (κ × α)) (k : κ) (v : α) :
    List (κ × α) :=
  if containsKey l k then l.map (fun p => if p.1 = k then (k, v) else p)
  else l ++ [(k, v)]

/-- Lookup of a key in an association list (Python `d[k]`, first match). -/
def lookupKey {κ α : Type} [DecidableEq κ] (l : List (κ × α)) (k : κ) : Option α :=
  (l.find? (fun p => decide (p.1 = k))).map Prod.snd

/-- In-place mutation of the value stored under a key (Python
`d[k].method(...)` on a mutable value). -/
def updateValue {κ α : Type} [DecidableEq κ] (l : List (κ × α)) (k : κ) (f : α → α) :
    List (κ × α) :=
  l.map (fun p => if p.1 = k then (p.1, f p.2) else p)

/-- `class Student` (src/app.py lines 7-39): id, name and a date → present
mapping. -/
structure Student where
  student_id : String
  name : String
  attendance : List (String × Bool)
deriving DecidableEq

/-- `Student.mark_attendance` (lines 16-22): `self.attendance[date] = present`.
The `date=None` default (today's date) is real time and is passed explicitly
here. -/
def Student.mark_attendance (s : Student) (date : String) (present : Bool) : Student :=
  ⟨s.student_id, s.name, dictSet s.attendance date present⟩

/-- `Student.get_attendance_percentage` (lines 24-30): present count over the
number of recorded dates, times 100, and `0` when no dates are recorded. -/
def Student.get_attendance_percentage (s : Student) : ℚ :=
  let total : ℕ := s.attendance.length
  let present_days : ℕ := (s.attendance.filter (fun p => p.2)).length
  if 0 < total then ((present_days : ℚ) / (total : ℚ)) * 100 else 0

/-- `class AttendanceManager` (lines 45-131): roster keyed by student id. -/
structure AttendanceManager where
  students : List (String × Student)
deriving DecidableEq

/-- A freshly constructed manager: `AttendanceManager()` has an empty roster. -/
def AttendanceManager.empty : AttendanceManager := ⟨[]⟩

/-- `AttendanceManager.add_student` (lines 52-61): refuse a duplicate id,
otherwise insert a new `Student` with an empty attendance mapping.  Returns the
new state together with the boolean result. -/
def AttendanceManager.add_student (m : AttendanceManager) (student_id nm : String) :
    AttendanceManager × Bool :=
  if containsKey m.students student_id then (m, false)
  else (⟨m.students ++ [(student_id, ⟨student_id, nm, []⟩)]⟩, true)

/-- `AttendanceManager.mark_attendance` (lines 72-81): fail on an unknown id,
otherwise delegate to `Student.mark_attendance` on the stored student. -/
def AttendanceManager.mark_attendance (m : AttendanceManager) (student_id : String)
    (present : Bool) (date : String) : AttendanceManager × Bool :=
  if containsKey m.students student_id then
    (⟨updateValue m.students student_id (fun s => s.mark_attendance date present)⟩, true)
  else (m, false)

/-- Python `str(bool)`, as written to a CSV field by `csv.writer`. -/
def pyStr (b : Bool) : String := if b then "True" else "False"

/-- The CSV rows `save_to_csv` emits for one roster entry (lines 103-105):
one row `[id, name, date, present]` per attendance entry. -/
def rowsOf (p : String × Student) : List (List String) :=
  p.2.attendance.map (fun q => [p.1, p.2.name, q.1, pyStr q.2])

/-- `AttendanceManager.save_to_csv` (lines 96-108), at the row level: the rows
written to the file, nested iteration over students then their attendance. -/
def AttendanceManager.save_to_csv (m : AttendanceManager) : List (List String) :=
  m.students.flatMap rowsOf

/-- The boolean parse in `load_from_csv` line 125: `present = present == 'True'`. -/
def parsePresent (s : String) : Bool := decide (s = "True")

/-- One iteration of the row loop in `load_from_csv` (lines 121-128): skip a
row that does not have exactly 4 fields; otherwise create the student if the
id is new and record the attendance entry. -/
def loadRow (m : AttendanceManager) (row : List String) : AttendanceManager :=
  match row with
  | [student_id, nm, date, presentStr] =>
      let m1 : AttendanceManager :=
        if containsKey m.students student_id then m
        else ⟨m.students ++ [(student_id, ⟨student_id, nm, []⟩)]⟩
      ⟨updateValue m1.students student_id
        (fun s => s.mark_attendance date (parsePresent presentStr))⟩
  | _ => m

/-- `AttendanceManager.load_from_csv` (lines 110-131), at the row level: fold
the row loop over the rows read from the file. -/
def AttendanceManager.load_from_csv (m : AttendanceManager) (rows : List (List String)) :
    AttendanceManager :=
  rows.foldl loadRow m

/-- The flattened view of a roster: the (id, name, date, present) tuples it
denotes, in iteration order (the unit of storage of both backends). -/
def flatten (m : AttendanceManager) : List (String × String × String × Bool) :=
  m.students.flatMap (fun p => p.2.attendance.map (fun q => (p.1, p.2.name, q.1, q.2)))

/-- The presence value a manager records for a given student and date, if any. -/
def recordedPresence (m : AttendanceManager) (student_id date : String) : Option Bool :=
  (lookupKey m.students student_id).bind (fun s => lookupKey s.attendance date)

/-- The (id, name) view of a roster, in iteration order. -/
def namesOf (m : AttendanceManager) : List (String × String) :=
  m.students.map (fun p => (p.1, p.2.name))

/-- `class AttendanceDB` (lines 385-459): the three SQLite tables, each keyed
by its primary key (`users.username`, `students.student_id`,
`attendance(student_id, date)`). -/
structure AttendanceDB where
  users : List (String × String)
  studentsT : List (String × String)
  attendanceT : List ((String × String) × Bool)
deriving DecidableEq

/-- `AttendanceDB.add_user` (lines 415-420): plain `INSERT`; a duplicate
username raises `IntegrityError`, which is caught, leaving the table
unchanged. -/
def AttendanceDB.add_user (db : AttendanceDB) (username pw : String) : AttendanceDB :=
  if containsKey db.users username then db
  else ⟨db.users ++ [(username, pw)], db.studentsT, db.attendanceT⟩

/-- `AttendanceDB.authenticate` (lines 422-424): `SELECT * FROM users WHERE
username = ? AND password = ?`, true iff some row matches both fields. -/
def AttendanceDB.authenticate (db : AttendanceDB) (username pw : String) : Bool :=
  db.users.any (fun p => decide (p.1 = username) && decide (p.2 = pw))

/-- `AttendanceDB.add_student` (lines 426-431): plain `INSERT`; a duplicate
primary key raises `IntegrityError`, which is caught, leaving the table
unchanged. -/
def AttendanceDB.add_student (db : AttendanceDB) (student_id nm : String) : AttendanceDB :=
  if containsKey db.studentsT student_id then db
  else ⟨db.users, db.studentsT ++ [(student_id, nm)], db.attendanceT⟩

/-- `AttendanceDB.mark_attendance` (lines 438-446): `INSERT OR REPLACE INTO
attendance` keyed by `(student_id, date)`.  The connection never enables
`PRAGMA foreign_keys`, so SQLite does not enforce the declared foreign key to
`students`: the upsert succeeds for any `student_id`. -/
def AttendanceDB.mark_attendance (db : AttendanceDB) (student_id date : String)
    (present : Bool) : AttendanceDB :=
  ⟨db.users, db.studentsT, dictSet db.attendanceT (student_id, date) present⟩

/-! ### Association-list lemmas -/

section AssocLemmas

variable {κ α : Type} [DecidableEq κ]

lemma containsKey_cons (p : κ × α) (t : List (κ × α)) (k : κ) :
    containsKey (p :: t) k = (decide (p.1 = k) || containsKey t k) := by
  simp [containsKey, List.any_cons]

lemma containsKey_append (l1 l2 : List (κ × α)) (k : κ) :
    containsKey (l1 ++ l2) k = (containsKey l1 k || containsKey l2 k) := by
  simp [containsKey, List.any_append]

lemma containsKey_iff_mem_keys (l : List (κ × α)) (k : κ) :
    containsKey l k = true ↔ k ∈ l.map Prod.fst := by
  simp [containsKey, List.any_eq_true, List.mem_map]

lemma containsKey_eq_false_iff (l : List (κ × α)) (k : κ) :
    containsKey l k = false ↔ ∀ p ∈ l, p.1 ≠ k := by
  rw [← Bool.not_eq_true, containsKey_iff_mem_keys]
  constructor
  · intro h p hp hk
    exact h (List.mem_map.mpr ⟨p, hp, hk⟩)
  · intro h hm
    obtain ⟨p, hp, hk⟩ := List.mem_map.mp hm
    exact h p hp hk

lemma contains_of_cons_neg (p : κ × α) (t : List (κ × α)) (k : κ) (hp : p.1 ≠ k)
    (h : containsKey (p :: t) k = true) : containsKey t k = true := by
  rw [containsKey_iff_mem_keys] at h ⊢
  rw [List.map_cons] at h
  rcases List.mem_cons.mp h with h | h
  · exact absurd h.symm hp
  · exact h

lemma updateValue_append (l1 l2 : List (κ × α)) (k : κ) (f : α → α) :
    updateValue (l1 ++ l2) k f = updateValue l1 k f ++ updateValue l2 k f := by
  simp [updateValue]

lemma updateValue_of_not_contains (l : List (κ × α)) (k : κ) (f : α → α)
    (h : containsKey l k = false) : updateValue l k f = l := by
  rw [containsKey_eq_false_iff] at h
  induction l with
  | nil => rfl
  | cons p t ih =>
      have hp : p.1 ≠ k := h p (List.mem_cons_self p t)
      have ht : ∀ q ∈ t, q.1 ≠ k := fun q hq => h q (List.mem_cons_of_mem p hq)
      simp only [updateValue, List.map_cons, if_neg hp] at ih ⊢
      rw [ih ht]

lemma updateValue_keys (l : List (κ × α)) (k : κ) (f : α → α) :
    (updateValue l k f).map Prod.fst = l.map Prod.fst := by
  unfold updateValue
  rw [List.map_map]
  apply List.map_congr_left
  intro p _
  by_cases hp : p.1 = k <;> simp [hp]

lemma containsKey_updateValue (l : List (κ × α)) (k k' : κ) (f : α → α) :
    containsKey (updateValue l k f) k' = containsKey l k' := by
  rw [Bool.eq_iff_iff, containsKey_iff_mem_keys, containsKey_iff_mem_keys,
    updateValue_keys]

lemma lookupKey_cons_pos (p : κ × α) (t : List (κ × α)) (k : κ) (hp : p.1 = k) :
    lookupKey (p :: t) k = some p.2 := by
  rw [lookupKey, List.find?_cons_of_pos _ (by simp [hp])]
  rfl

lemma lookupKey_cons_neg (p : κ × α) (t : List (κ × α)) (k : κ) (hp : p.1 ≠ k) :
    lookupKey (p :: t) k = lookupKey t k := by
  rw [lookupKey, List.find?_cons_of_neg _ (by simp [hp])]
  rfl

lemma lookupKey_singleton_self (k : κ) (v : α) : lookupKey [(k, v)] k = some v :=
  lookupKey_cons_pos (k, v) [] k rfl

lemma lookupKey_append_right (l1 l2 : List (κ × α)) (k : κ)
    (h : containsKey l1 k = false) : lookupKey (l1 ++ l2) k = lookupKey l2 k := by
  rw [containsKey_eq_false_iff] at h
  induction l1 with
  | nil => rfl
  | cons p t ih =>
      have hp : p.1 ≠ k := h p (List.mem_cons_self p t)
      have ht : ∀ q ∈ t, q.1 ≠ k := fun q hq => h q (List.mem_cons_of_mem p hq)
      rw [List.cons_append, lookupKey_cons_neg _ _ _ hp]
      exact ih ht

lemma lookupKey_updateValue (l : List (κ × α)) (k : κ) (f : α → α) :
    lookupKey (updateValue l k f) k = (lookupKey l k).map f := by
  induction l with
  | nil => rfl
  | cons p t ih =>
      by_cases hp : p.1 = k
      · simp only [updateValue, List.map_cons, if_pos hp]
        rw [lookupKey_cons_pos p t k hp, lookupKey_cons_pos (p.1, f p.2) _ k hp]
        rfl
      · simp only [updateValue, List.map_cons, if_neg hp]
        rw [lookupKey_cons_neg _ _ _ hp, lookupKey_cons_neg p t k hp]
        exact ih

lemma lookupKey_isSome_of_contains (l : List (κ × α)) (k : κ)
    (h : containsKey l k = true) : ∃ v, lookupKey l k = some v := by
  induction l with
  | nil => simp [containsKey] at h
  | cons p t ih =>
      by_cases hp : p.1 = k
      · exact ⟨p.2, lookupKey_cons_pos p t k hp⟩
      · obtain ⟨v, hv⟩ := ih (contains_of_cons_neg p t k hp h)
        exact ⟨v, by rw [lookupKey_cons_neg p t k hp]; exact hv⟩

lemma lookupKey_map_overwrite (l : List (κ × α)) (k : κ) (v : α)
    (h : containsKey l k = true) :
    lookupKey (l.map (fun p => if p.1 = k then (k, v) else p)) k = some v := by
  induction l with
  | nil => simp [containsKey] at h
  | cons p t ih =>
      by_cases hp : p.1 = k
      · rw [List.map_cons, if_pos hp, lookupKey_cons_pos _ _ _ rfl]
      · rw [List.map_cons, if_neg hp, lookupKey_cons_neg _ _ _ hp]
        exact ih (contains_of_cons_neg p t k hp h)

lemma dictSet_of_not_contains (l : List (κ × α)) (k : κ) (v : α)
    (h : containsKey l k = false) : dictSet l k v = l ++ [(k, v)] := by
  rw [dictSet, if_neg (by simp [h])]

lemma lookupKey_dictSet_self (l : List (κ × α)) (k : κ) (v : α) :
    lookupKey (dictSet l k v) k = some v := by
  by_cases hc : containsKey l k = true
  · rw [dictSet, if_pos hc]
    exact lookupKey_map_overwrite l k v hc
  · have hc' : containsKey l k = false := by simpa using hc
    rw [dictSet_of_not_contains l k v hc', lookupKey_append_right l _ k hc',
      lookupKey_singleton_self]

omit [DecidableEq κ] in
lemma value_unique_of_nodup_keys (l : List (κ × α)) (h : (l.map Prod.fst).Nodup)
    (k : κ) (a : α) (h1 : (k, a) ∈ l) (p : κ × α) (h2 : p ∈ l) (hk : p.1 = k) :
    p.2 = a := by
  induction l with
  | nil => cases h1
  | cons q t ih =>
      rw [List.map_cons, List.nodup_cons] at h
      rcases List.mem_cons.mp h1 with h1 | h1 <;> rcases List.mem_cons.mp h2 with h2 | h2
      · rw [h2, ← h1]
      · exfalso
        have hq1 : q.1 = k := by rw [← h1]
        exact (hq1 ▸ h.1) (List.mem_map.mpr ⟨p, h2, hk⟩)
      · exfalso
        have hq1 : q.1 = k := by rw [← h2, hk]
        exact (hq1 ▸ h.1) (List.mem_map.mpr ⟨(k, a), h1, rfl⟩)
      · exact ih h.2 h1 h2

end AssocLemmas

lemma parsePresent_pyStr (b : Bool) : parsePresent (pyStr b) = b := by
  cases b <;> decide

/-! ### Claim theorems -/

/-- Claim C1: for every student, `get_attendance_percentage` equals (count of
dates marked present) / (count of distinct dates recorded) × 100, and equals 0
when the student has no recorded dates.  The distinct-keys hypothesis is the
dictionary invariant every reachable `Student` satisfies. -/
theorem get_attendance_percentage_spec (s : Student)
    (h : (s.attendance.map Prod.fst).Nodup) :
    s.get_attendance_percentage =
      if (s.attendance.map Prod.fst).dedup.length = 0 then 0
      else ((s.attendance.filter (fun p => p.2)).length : ℚ)
            / ((s.attendance.map Prod.fst).dedup.length : ℚ) * 100 := by
  have hd : (s.attendance.map Prod.fst).dedup = s.attendance.map Prod.fst :=
    List.dedup_eq_self.mpr h
  simp only [Student.get_attendance_percentage, hd, List.length_map]
  by_cases h0 : s.attendance.length = 0
  · simp [h0]
  · rw [if_pos (Nat.pos_of_ne_zero h0), if_neg h0]

/-- Witness for C1 at a student with one present and one absent day. -/
theorem get_attendance_percentage_spec_witness :
    ((([("2024-01-01", true), ("2024-01-02", false)] : List (String × Bool)).map
        Prod.fst).Nodup) ∧
    (Student.mk "S1" "Ann"
        [("2024-01-01", true), ("2024-01-02", false)]).get_attendance_percentage =
      (if (([("2024-01-01", true), ("2024-01-02", false)] : List (String × Bool)).map
            Prod.fst).dedup.length = 0 then 0
       else ((([("2024-01-01", true), ("2024-01-02", false)] : List (String × Bool)).filter
              (fun p => p.2)).length : ℚ)
            / ((([("2024-01-01", true), ("2024-01-02", false)] : List (String × Bool)).map
                Prod.fst).dedup.length : ℚ) * 100) :=
  ⟨by decide,
    get_attendance_percentage_spec
      ⟨"S1", "Ann", [("2024-01-01", true), ("2024-01-02", false)]⟩ (by decide)⟩

/-- Claim C4: during `load_from_csv`, a 4-field row records presence `true`
exactly when its fourth field is the case-sensitive literal token "True"; every
other string, including "true" and "1", is recorded as `false`. -/
theorem load_parses_only_literal_True (m : AttendanceManager) (i n d ps : String) :
    recordedPresence (loadRow m [i, n, d, ps]) i d = some (parsePresent ps) ∧
    (parsePresent ps = true ↔ ps = "True") ∧
    parsePresent "true" = false ∧ parsePresent "1" = false := by
  refine ⟨?_, by simp [parsePresent], by decide, by decide⟩
  by_cases hc : containsKey m.students i = true
  · simp only [loadRow, if_pos hc, recordedPresence]
    obtain ⟨s, hs⟩ := lookupKey_isSome_of_contains m.students i hc
    rw [lookupKey_updateValue, hs]
    simp only [Option.map_some', Option.some_bind]
    exact lookupKey_dictSet_self _ _ _
  · have hc' : containsKey m.students i = false := by simpa using hc
    simp only [loadRow, if_neg hc, recordedPresence]
    rw [updateValue_append, updateValue_of_not_contains m.students i _ hc',
      lookupKey_append_right _ _ _ hc']
    have hs : updateValue [(i, (⟨i, n, []⟩ : Student))] i
        (fun s => s.mark_attendance d (parsePresent ps)) =
        [(i, Student.mark_attendance ⟨i, n, []⟩ d (parsePresent ps))] := by
      simp [updateValue]
    rw [hs, lookupKey_singleton_self]
    simp only [Option.some_bind]
    exact lookupKey_dictSet_self [] d (parsePresent ps)

/-- Claim C5: `load_from_csv` skips any row whose field count is not exactly 4,
leaving the roster unchanged for that row, and continues with the remaining
rows. -/
theorem load_skips_malformed_rows (m : AttendanceManager) (row : List String)
    (h : row.length ≠ 4) (rest : List (List String)) :
    loadRow m row = m ∧
    m.load_from_csv (row :: rest) = m.load_from_csv rest := by
  have h1 : loadRow m row = m := by
    match row with
    | [] => rfl
    | [a] => rfl
    | [a, b] => rfl
    | [a, b, c] => rfl
    | [a, b, c, d] => simp at h
    | a :: b :: c :: d :: e :: t => rfl
  refine ⟨h1, ?_⟩
  rw [AttendanceManager.load_from_csv, List.foldl_cons, h1]
  rfl

/-- Witness for C5 at a 3-field row. -/
theorem load_skips_malformed_rows_witness :
    (["x", "y", "z"] : List String).length ≠ 4 ∧
    (loadRow AttendanceManager.empty ["x", "y", "z"] = AttendanceManager.empty ∧
      AttendanceManager.empty.load_from_csv [["x", "y", "z"]] =
        AttendanceManager.empty.load_from_csv []) :=
  ⟨by decide,
    load_skips_malformed_rows AttendanceManager.empty ["x", "y", "z"] (by decide) []⟩

/-- Claim C6: `add_student` with an already-present id returns false and leaves
the roster unchanged (so the original name is retained); with a fresh id it
returns true and appends a student with that id, that name, and an empty
attendance mapping. -/
theorem add_student_spec (m : AttendanceManager) (k n : String) :
    (containsKey m.students k = true → m.add_student k n = (m, false)) ∧
    (containsKey m.students k = false →
      m.add_student k n = (⟨m.students ++ [(k, ⟨k, n, []⟩)]⟩, true)) := by
  constructor
  · intro h
    rw [AttendanceManager.add_student, if_pos h]
  · intro h
    rw [AttendanceManager.add_student, if_neg (by simp [h])]

/-- Witness for C6: a duplicate add fails and keeps the original name, a fresh
add succeeds. -/
theorem add_student_spec_witness :
    containsKey (AttendanceManager.mk [("S1", Student.mk "S1" "Ann" [])]).students
        "S1" = true ∧
    (AttendanceManager.mk [("S1", Student.mk "S1" "Ann" [])]).add_student "S1" "Bob" =
      (AttendanceManager.mk [("S1", Student.mk "S1" "Ann" [])], false) :=
  ⟨by decide,
    (add_student_spec (AttendanceManager.mk [("S1", Student.mk "S1" "Ann" [])])
      "S1" "Bob").1 (by decide)⟩

/-- Claim C7: marking attendance twice for the same (id, date) retains the
later value (last-write-wins), both in the in-memory manager and in the
relational backend's attendance table. -/
theorem mark_attendance_last_write_wins (m : AttendanceManager) (k d : String)
    (p1 p2 : Bool) (db : AttendanceDB)
    (h : containsKey m.students k = true) :
    recordedPresence (((m.mark_attendance k p1 d).1).mark_attendance k p2 d).1 k d
        = some p2 ∧
    lookupKey ((db.mark_attendance k d p1).mark_attendance k d p2).attendanceT (k, d)
        = some p2 := by
  constructor
  · have e1 : (m.mark_attendance k p1 d).1 =
        ⟨updateValue m.students k (fun s => s.mark_attendance d p1)⟩ := by
      rw [AttendanceManager.mark_attendance, if_pos h]
    have h2 : containsKey (updateValue m.students k
        (fun s => s.mark_attendance d p1)) k = true := by
      rw [containsKey_updateValue]; exact h
    have e2 : ((⟨updateValue m.students k (fun s => s.mark_attendance d p1)⟩ :
          AttendanceManager).mark_attendance k p2 d).1 =
        ⟨updateValue (updateValue m.students k (fun s => s.mark_attendance d p1)) k
          (fun s => s.mark_attendance d p2)⟩ := by
      rw [AttendanceManager.mark_attendance, if_pos h2]
    rw [e1, e2]
    simp only [recordedPresence]
    obtain ⟨s, hs⟩ := lookupKey_isSome_of_contains m.students k h
    rw [lookupKey_updateValue, lookupKey_updateValue, hs]
    simp only [Option.map_some', Option.some_bind]
    exact lookupKey_dictSet_self _ _ _
  · exact lookupKey_dictSet_self _ _ _

/-- Witness for C7: mark "S1" present then absent on the same date; both
backends record absent. -/
theorem mark_attendance_last_write_wins_witness :
    containsKey (AttendanceManager.mk [("S1", Student.mk "S1" "Ann" [])]).students
        "S1" = true ∧
    (recordedPresence
        ((((AttendanceManager.mk [("S1", Student.mk "S1" "Ann" [])]).mark_attendance
            "S1" true "2024-01-01").1).mark_attendance "S1" false "2024-01-01").1
        "S1" "2024-01-01" = some false ∧
      lookupKey (((AttendanceDB.mk [] [] []).mark_attendance "S1" "2024-01-01"
            true).mark_attendance "S1" "2024-01-01" false).attendanceT
        ("S1", "2024-01-01") = some false) :=
  ⟨by decide,
    mark_attendance_last_write_wins (AttendanceManager.mk [("S1", Student.mk "S1" "Ann" [])])
      "S1" "2024-01-01" true false (AttendanceDB.mk [] [] []) (by decide)⟩

/-- Claim C8: `authenticate` returns true iff the users table stores exactly
that (username, password) pair, and false for every other combination. -/
theorem authenticate_iff_stored (db : AttendanceDB) (u p : String) :
    db.authenticate u p = true ↔ (u, p) ∈ db.users := by
  simp only [AttendanceDB.authenticate, List.any_eq_true, Bool.and_eq_true,
    decide_eq_true_eq]
  constructor
  · rintro ⟨q, hq, h1, h2⟩
    have hq' : (u, p) = q := by rw [← h1, ← h2]
    rw [hq']
    exact hq
  · intro h
    exact ⟨(u, p), h, rfl, rfl⟩

/-- Claim C3 (recording the divergence): the in-memory `mark_attendance` aborts
unchanged on an unknown id, but the relational `mark_attendance` does not: the
source never enables `PRAGMA foreign_keys`, so SQLite ignores the declared
foreign key and the upsert succeeds for a `student_id` absent from the
`students` table, inserting a row instead of aborting. -/
theorem mark_attendance_unknown_id_behaviour :
    AttendanceManager.empty.mark_attendance "S1" true "2024-01-01"
        = (AttendanceManager.empty, false) ∧
    containsKey (AttendanceDB.mk [] [] []).studentsT "S1" = false ∧
    ((AttendanceDB.mk [] [] []).mark_attendance "S1" "2024-01-01" true).attendanceT
        = [(("S1", "2024-01-01"), true)] :=
  ⟨rfl, rfl, rfl⟩

/-! ### Round-trip lemmas (save then load) -/

lemma load_from_csv_cons (m : AttendanceManager) (row : List String)
    (rest : List (List String)) :
    m.load_from_csv (row :: rest) = (loadRow m row).load_from_csv rest := rfl

lemma loadRow_known_last (pre : List (String × Student)) (k nm : String) (s : Student)
    (d : String) (p : Bool) (hpre : containsKey pre k = false) :
    loadRow ⟨pre ++ [(k, s)]⟩ [k, nm, d, pyStr p] =
      ⟨pre ++ [(k, s.mark_attendance d p)]⟩ := by
  have hc : containsKey (pre ++ [(k, s)]) k = true := by
    rw [containsKey_append, containsKey_cons]
    simp
  simp only [loadRow, if_pos hc]
  rw [updateValue_append, updateValue_of_not_contains pre k _ hpre]
  congr 1
  simp [updateValue, parsePresent_pyStr]

lemma load_rows_known (pre : List (String × Student)) (k nm : String) (s : Student)
    (att : List (String × Bool))
    (hpre : containsKey pre k = false)
    (hdisj : ∀ d ∈ att.map Prod.fst, containsKey s.attendance d = false)
    (hnodup : (att.map Prod.fst).Nodup) :
    AttendanceManager.load_from_csv ⟨pre ++ [(k, s)]⟩
        (att.map (fun q => [k, nm, q.1, pyStr q.2]))
      = ⟨pre ++ [(k, ⟨s.student_id, s.name, s.attendance ++ att⟩)]⟩ := by
  induction att generalizing s with
  | nil => simp [AttendanceManager.load_from_csv]
  | cons q rest ih =>
      obtain ⟨d, p⟩ := q
      have hd : containsKey s.attendance d = false := hdisj d (by simp)
      have hmark : s.mark_attendance d p =
          ⟨s.student_id, s.name, s.attendance ++ [(d, p)]⟩ := by
        rw [Student.mark_attendance, dictSet_of_not_contains _ _ _ hd]
      rw [List.map_cons, load_from_csv_cons, loadRow_known_last pre k nm s d p hpre,
        hmark]
      have hdisj' : ∀ e ∈ rest.map Prod.fst,
          containsKey (s.attendance ++ [(d, p)]) e = false := by
        intro e he
        rw [containsKey_append]
        have h1 : containsKey s.attendance e = false := hdisj e (by simp [he])
        have h2 : d ≠ e := by
          rintro rfl
          rw [List.map_cons, List.nodup_cons] at hnodup
          exact hnodup.1 he
        rw [h1]
        simp [containsKey, h2]
      have hnodup' : (rest.map Prod.fst).Nodup := by
        rw [List.map_cons, List.nodup_cons] at hnodup
        exact hnodup.2
      have hih := ih ⟨s.student_id, s.name, s.attendance ++ [(d, p)]⟩ hdisj' hnodup'
      simpa [List.append_assoc] using hih

lemma load_rows_fresh (pre : List (String × Student)) (k nm : String)
    (att : List (String × Bool))
    (hpre : containsKey pre k = false)
    (hnodup : (att.map Prod.fst).Nodup) :
    AttendanceManager.load_from_csv ⟨pre⟩ (att.map (fun q => [k, nm, q.1, pyStr q.2]))
      = if att.isEmpty then ⟨pre⟩ else ⟨pre ++ [(k, ⟨k, nm, att⟩)]⟩ := by
  match att with
  | [] => rfl
  | (d, p) :: rest =>
      rw [List.map_cons, load_from_csv_cons]
      have hload : loadRow ⟨pre⟩ [k, nm, d, pyStr p] =
          ⟨pre ++ [(k, Student.mk k nm [(d, p)])]⟩ := by
        simp only [loadRow, if_neg (by simp [hpre] : ¬ containsKey pre k = true)]
        rw [updateValue_append, updateValue_of_not_contains pre k _ hpre]
        congr 1
        simp [updateValue, Student.mark_attendance, dictSet, containsKey,
          parsePresent_pyStr]
      rw [hload]
      rw [List.map_cons, List.nodup_cons] at hnodup
      have hdisj : ∀ e ∈ rest.map Prod.fst,
          containsKey ([(d, p)] : List (String × Bool)) e = false := by
        intro e he
        have hde : d ≠ e := by rintro rfl; exact hnodup.1 he
        simp [containsKey, hde]
      have hrest := load_rows_known pre k nm ⟨k, nm, [(d, p)]⟩ rest hpre hdisj hnodup.2
      rw [hrest]
      simp

lemma load_all_blocks (pre todo : List (String × Student))
    (hdisj : ∀ p ∈ todo, containsKey pre p.1 = false)
    (hnodup : (todo.map Prod.fst).Nodup)
    (hatt : ∀ p ∈ todo, (p.2.attendance.map Prod.fst).Nodup) :
    AttendanceManager.load_from_csv ⟨pre⟩ (todo.flatMap rowsOf)
      = ⟨pre ++ (todo.filter (fun p => !p.2.attendance.isEmpty)).map
            (fun p => (p.1, ⟨p.1, p.2.name, p.2.attendance⟩))⟩ := by
  induction todo generalizing pre with
  | nil => simp [AttendanceManager.load_from_csv]
  | cons q rest ih =>
      rw [List.flatMap_cons]
      have hsplit : AttendanceManager.load_from_csv ⟨pre⟩
            (rowsOf q ++ rest.flatMap rowsOf)
          = AttendanceManager.load_from_csv
              (AttendanceManager.load_from_csv ⟨pre⟩ (rowsOf q))
              (rest.flatMap rowsOf) := by
        simp only [AttendanceManager.load_from_csv, List.foldl_append]
      rw [hsplit]
      have hq : AttendanceManager.load_from_csv ⟨pre⟩ (rowsOf q)
          = if q.2.attendance.isEmpty then ⟨pre⟩
            else ⟨pre ++ [(q.1, ⟨q.1, q.2.name, q.2.attendance⟩)]⟩ := by
        rw [show rowsOf q =
            q.2.attendance.map (fun r => [q.1, q.2.name, r.1, pyStr r.2]) from rfl]
        exact load_rows_fresh pre q.1 q.2.name q.2.attendance (hdisj q (by simp))
          (hatt q (by simp))
      rw [hq]
      rw [List.map_cons, List.nodup_cons] at hnodup
      by_cases he : q.2.attendance.isEmpty = true
      · rw [if_pos he]
        have hrest := ih pre (fun p hp => hdisj p (by simp [hp])) hnodup.2
          (fun p hp => hatt p (by simp [hp]))
        rw [hrest, List.filter_cons]
        simp [he]
      · rw [if_neg he]
        have he' : q.2.attendance.isEmpty = false := by simpa using he
        have hdisj' : ∀ p ∈ rest, containsKey
            (pre ++ [(q.1, (⟨q.1, q.2.name, q.2.attendance⟩ : Student))]) p.1 = false := by
          intro p hp
          rw [containsKey_append]
          have h1 : containsKey pre p.1 = false := hdisj p (by simp [hp])
          have h2 : q.1 ≠ p.1 := by
            intro hqp
            exact hnodup.1 (List.mem_map.mpr ⟨p, hp, hqp.symm⟩)
          rw [h1]
          simp [containsKey, h2]
        have hrest := ih (pre ++ [(q.1, ⟨q.1, q.2.name, q.2.attendance⟩)]) hdisj'
          hnodup.2 (fun p hp => hatt p (by simp [hp]))
        rw [hrest, List.filter_cons]
        simp [he', List.append_assoc]

lemma flatten_cons (q : String × Student) (t : List (String × Student)) :
    flatten ⟨q :: t⟩ =
      q.2.attendance.map (fun r => (q.1, q.2.name, r.1, r.2)) ++ flatten ⟨t⟩ := by
  simp [flatten]

lemma flatten_reconstruct (l : List (String × Student)) :
    flatten ⟨(l.filter (fun p => !p.2.attendance.isEmpty)).map
        (fun p => (p.1, ⟨p.1, p.2.name, p.2.attendance⟩))⟩ = flatten ⟨l⟩ := by
  induction l with
  | nil => rfl
  | cons q t ih =>
      rw [List.filter_cons]
      by_cases he : q.2.attendance.isEmpty = true
      · have hnil : q.2.attendance = [] := List.isEmpty_iff.mp he
        rw [if_neg (by simp [he]), ih, flatten_cons q t, hnil]
        simp
      · have he' : q.2.attendance.isEmpty = false := by simpa using he
        rw [if_pos (by simp [he']), List.map_cons,
          flatten_cons (q.1, ⟨q.1, q.2.name, q.2.attendance⟩) _, flatten_cons q t, ih]

/-- Claim C2: saving a roster with `save_to_csv` and loading the rows into a
fresh empty manager reproduces the flattened (id, name, date, present) tuples
exactly (so in particular the same set); the "True"-only parse rule never bites
because `save_to_csv` writes exactly "True"/"False".  The two hypotheses are
the dictionary invariants every reachable roster satisfies. -/
theorem save_load_round_trip (m : AttendanceManager)
    (hkeys : (m.students.map Prod.fst).Nodup)
    (hatt : ∀ p ∈ m.students, (p.2.attendance.map Prod.fst).Nodup) :
    flatten (AttendanceManager.empty.load_from_csv m.save_to_csv) = flatten m := by
  have hload := load_all_blocks [] m.students (fun p _ => rfl) hkeys hatt
  rw [show AttendanceManager.empty = (⟨[]⟩ : AttendanceManager) from rfl,
    AttendanceManager.save_to_csv, hload, List.nil_append]
  rw [show m = (⟨m.students⟩ : AttendanceManager) from rfl]
  exact flatten_reconstruct m.students

/-- Witness for C2 at a two-student roster, one student having two marks and
the other none. -/
theorem save_load_round_trip_witness :
    (([("S1", Student.mk "S1" "Ann" [("2024-01-01", true), ("2024-01-02", false)]),
        ("S2", Student.mk "S2" "Bob" [])].map Prod.fst).Nodup) ∧
    (([("2024-01-01", true), ("2024-01-02", false)] : List (String × Bool)).map
        Prod.fst).Nodup ∧
    flatten (AttendanceManager.empty.load_from_csv
        (AttendanceManager.mk
          [("S1", Student.mk "S1" "Ann" [("2024-01-01", true), ("2024-01-02", false)]),
            ("S2", Student.mk "S2" "Bob" [])]).save_to_csv) =
      flatten (AttendanceManager.mk
        [("S1", Student.mk "S1" "Ann" [("2024-01-01", true), ("2024-01-02", false)]),
          ("S2", Student.mk "S2" "Bob" [])]) :=
  ⟨by decide, by decide,
    save_load_round_trip
      (AttendanceManager.mk
        [("S1", Student.mk "S1" "Ann" [("2024-01-01", true), ("2024-01-02", false)]),
          ("S2", Student.mk "S2" "Bob" [])])
      (by decide) (by decide)⟩

/-- Claim C9: `save_to_csv` writes no row for a student whose attendance
mapping is empty (no emitted row has that student's id in its first field),
so that student is absent from the roster obtained by loading the saved rows
into a fresh manager. -/
theorem empty_attendance_not_saved (m : AttendanceManager) (k : String) (s : Student)
    (hkeys : (m.students.map Prod.fst).Nodup)
    (hatt : ∀ p ∈ m.students, (p.2.attendance.map Prod.fst).Nodup)
    (hmem : (k, s) ∈ m.students) (hempty : s.attendance = []) :
    some k ∉ m.save_to_csv.map List.head? ∧
    containsKey (AttendanceManager.empty.load_from_csv m.save_to_csv).students k
      = false := by
  constructor
  · intro hk
    obtain ⟨row, hrow, hhead⟩ := List.mem_map.mp hk
    rw [AttendanceManager.save_to_csv] at hrow
    obtain ⟨p, hp, hr⟩ := List.mem_flatMap.mp hrow
    obtain ⟨r, hr2, hr3⟩ := List.mem_map.mp hr
    rw [← hr3] at hhead
    have hpk : p.1 = k := by
      simpa using hhead
    have hps : p.2 = s := value_unique_of_nodup_keys m.students hkeys k s hmem p hp hpk
    rw [hps, hempty] at hr2
    cases hr2
  · have hload := load_all_blocks [] m.students (fun p _ => rfl) hkeys hatt
    rw [show AttendanceManager.empty = (⟨[]⟩ : AttendanceManager) from rfl,
      AttendanceManager.save_to_csv, hload]
    rw [containsKey_eq_false_iff]
    intro p hp hpk
    rw [List.nil_append] at hp
    obtain ⟨p0, hp0, hf⟩ := List.mem_map.mp hp
    have hp0mem : p0 ∈ m.students := List.mem_of_mem_filter hp0
    have hkey : p0.1 = k := by
      rw [← hf] at hpk
      simpa using hpk
    have hps : p0.2 = s := value_unique_of_nodup_keys m.students hkeys k s hmem p0
      hp0mem hkey
    have hfilter := List.of_mem_filter hp0
    rw [hps, hempty] at hfilter
    simp at hfilter

/-- Witness for C9: a roster where "S2" has no marks; no saved row starts with
"S2" and "S2" is absent after the round trip. -/
theorem empty_attendance_not_saved_witness :
    (([("S1", Student.mk "S1" "Ann" [("2024-01-01", true)]),
        ("S2", Student.mk "S2" "Bob" [])].map Prod.fst).Nodup) ∧
    ("S2", Student.mk "S2" "Bob" []) ∈
      (AttendanceManager.mk
        [("S1", Student.mk "S1" "Ann" [("2024-01-01", true)]),
          ("S2", Student.mk "S2" "Bob" [])]).students ∧
    (some "S2" ∉ (AttendanceManager.mk
        [("S1", Student.mk "S1" "Ann" [("2024-01-01", true)]),
          ("S2", Student.mk "S2" "Bob" [])]).save_to_csv.map List.head? ∧
      containsKey (AttendanceManager.empty.load_from_csv
          (AttendanceManager.mk
            [("S1", Student.mk "S1" "Ann" [("2024-01-01", true)]),
              ("S2", Student.mk "S2" "Bob" [])]).save_to_csv).students "S2"
        = false) :=
  ⟨by decide, by decide,
    empty_attendance_not_saved
      (AttendanceManager.mk
        [("S1", Student.mk "S1" "Ann" [("2024-01-01", true)]),
          ("S2", Student.mk "S2" "Bob" [])])
      "S2" (Student.mk "S2" "Bob" []) (by decide) (by decide) (by decide) rfl⟩

/-! ### Merge (frame) lemmas for load_from_csv -/

lemma namesOf_updateValue_mark (l : List (String × Student)) (i d : String) (b : Bool) :
    (updateValue l i (fun s => s.mark_attendance d b)).map (fun p => (p.1, p.2.name))
      = l.map (fun p => (p.1, p.2.name)) := by
  unfold updateValue
  rw [List.map_map]
  apply List.map_congr_left
  intro p _
  by_cases hp : p.1 = i <;> simp [hp, Student.mark_attendance]

lemma namesOf_loadRow (m : AttendanceManager) (row : List String) :
    ∃ ext : List (String × String),
      namesOf (loadRow m row) = namesOf m ++ ext ∧
      ∀ q ∈ ext, containsKey m.students q.1 = false := by
  match row with
  | [] =>
      exact ⟨[], by rw [show loadRow m [] = m from rfl, List.append_nil], by simp⟩
  | [a] =>
      exact ⟨[], by rw [show loadRow m [a] = m from rfl, List.append_nil], by simp⟩
  | [a, b] =>
      exact ⟨[], by rw [show loadRow m [a, b] = m from rfl, List.append_nil], by simp⟩
  | [a, b, c] =>
      exact ⟨[], by rw [show loadRow m [a, b, c] = m from rfl, List.append_nil],
        by simp⟩
  | a :: b :: c :: d :: e :: t =>
      exact ⟨[], by rw [show loadRow m (a :: b :: c :: d :: e :: t) = m from rfl,
        List.append_nil], by simp⟩
  | [i, nm, d, ps] =>
      by_cases hc : containsKey m.students i = true
      · refine ⟨[], ?_, by simp⟩
        simp only [loadRow, if_pos hc, namesOf, List.append_nil]
        exact namesOf_updateValue_mark m.students i d (parsePresent ps)
      · have hc' : containsKey m.students i = false := by simpa using hc
        refine ⟨[(i, nm)], ?_, ?_⟩
        · simp only [loadRow, if_neg hc, namesOf]
          rw [updateValue_append, updateValue_of_not_contains m.students i _ hc',
            List.map_append]
          congr 1
          simp [updateValue, Student.mark_attendance]
        · intro q hq
          rw [List.mem_singleton] at hq
          rw [hq]
          exact hc'

lemma containsKey_loadRow_mono (m : AttendanceManager) (row : List String) (k : String)
    (h : containsKey m.students k = true) :
    containsKey (loadRow m row).students k = true := by
  match row with
  | [] => exact h
  | [a] => exact h
  | [a, b] => exact h
  | [a, b, c] => exact h
  | a :: b :: c :: d :: e :: t => exact h
  | [i, nm, d, ps] =>
      by_cases hc : containsKey m.students i = true
      · simp only [loadRow, if_pos hc]
        rw [containsKey_updateValue]
        exact h
      · simp only [loadRow, if_neg hc]
        rw [containsKey_updateValue, containsKey_append, h]
        rfl

lemma namesOf_load_extend (m : AttendanceManager) (rows : List (List String)) :
    ∃ ext : List (String × String),
      namesOf (m.load_from_csv rows) = namesOf m ++ ext ∧
      ∀ q ∈ ext, containsKey m.students q.1 = false := by
  induction rows generalizing m with
  | nil => exact ⟨[], by simp [AttendanceManager.load_from_csv], by simp⟩
  | cons row rest ih =>
      obtain ⟨e0, he0, he0f⟩ := namesOf_loadRow m row
      obtain ⟨e1, he1, he1f⟩ := ih (loadRow m row)
      refine ⟨e0 ++ e1, ?_, ?_⟩
      · rw [load_from_csv_cons, he1, he0, List.append_assoc]
      · intro q hq
        rcases List.mem_append.mp hq with hq | hq
        · exact he0f q hq
        · have h1 := he1f q hq
          by_cases hk : containsKey m.students q.1 = true
          · rw [containsKey_loadRow_mono m row q.1 hk] at h1
            cases h1
          · simpa using hk

/-! ### Frame lemmas: lookups away from the written key are untouched -/

section FrameLemmas

variable {κ α : Type} [DecidableEq κ]

lemma lookupKey_eq_none_of_not_contains (l : List (κ × α)) (k : κ)
    (h : containsKey l k = false) : lookupKey l k = none := by
  rw [containsKey_eq_false_iff] at h
  induction l with
  | nil => rfl
  | cons p t ih =>
      have hp : p.1 ≠ k := h p (List.mem_cons_self p t)
      rw [lookupKey_cons_neg p t k hp]
      exact ih (fun q hq => h q (List.mem_cons_of_mem p hq))

lemma lookupKey_updateValue_ne (l : List (κ × α)) (i k : κ) (f : α → α)
    (h : i ≠ k) : lookupKey (updateValue l i f) k = lookupKey l k := by
  induction l with
  | nil => rfl
  | cons p t ih =>
      by_cases hp : p.1 = i
      · have hpk : p.1 ≠ k := by rw [hp]; exact h
        simp only [updateValue, List.map_cons, if_pos hp]
        rw [lookupKey_cons_neg p t k hpk, lookupKey_cons_neg (p.1, f p.2) _ k hpk]
        exact ih
      · by_cases hpk : p.1 = k
        · simp only [updateValue, List.map_cons, if_neg hp]
          rw [lookupKey_cons_pos p t k hpk,
            lookupKey_cons_pos p (List.map (fun p => if p.1 = i then (p.1, f p.2) else p) t)
              k hpk]
        · simp only [updateValue, List.map_cons, if_neg hp]
          rw [lookupKey_cons_neg p t k hpk,
            lookupKey_cons_neg p (List.map (fun p => if p.1 = i then (p.1, f p.2) else p) t)
              k hpk]
          exact ih

lemma lookupKey_append_singleton_ne (l : List (κ × α)) (i k : κ) (v : α)
    (h : i ≠ k) : lookupKey (l ++ [(i, v)]) k = lookupKey l k := by
  induction l with
  | nil =>
      rw [List.nil_append, lookupKey_cons_neg (i, v) [] k h]
  | cons p t ih =>
      by_cases hpk : p.1 = k
      · rw [List.cons_append, lookupKey_cons_pos p (t ++ [(i, v)]) k hpk,
          lookupKey_cons_pos p t k hpk]
      · rw [List.cons_append, lookupKey_cons_neg p (t ++ [(i, v)]) k hpk,
          lookupKey_cons_neg p t k hpk]
        exact ih

lemma lookupKey_map_overwrite_ne (l : List (κ × α)) (i k : κ) (v : α)
    (h : i ≠ k) :
    lookupKey (l.map (fun p => if p.1 = i then (i, v) else p)) k = lookupKey l k := by
  induction l with
  | nil => rfl
  | cons p t ih =>
      by_cases hp : p.1 = i
      · have hpk : p.1 ≠ k := by rw [hp]; exact h
        rw [List.map_cons, if_pos hp, lookupKey_cons_neg (i, v) _ k h,
          lookupKey_cons_neg p t k hpk]
        exact ih
      · by_cases hpk : p.1 = k
        · rw [List.map_cons, if_neg hp, lookupKey_cons_pos _ _ _ hpk,
            lookupKey_cons_pos p t k hpk]
        · rw [List.map_cons, if_neg hp, lookupKey_cons_neg _ _ _ hpk,
            lookupKey_cons_neg p t k hpk]
          exact ih

lemma lookupKey_dictSet_ne (l : List (κ × α)) (i k : κ) (v : α) (h : i ≠ k) :
    lookupKey (dictSet l i v) k = lookupKey l k := by
  by_cases hc : containsKey l i = true
  · rw [dictSet, if_pos hc]
    exact lookupKey_map_overwrite_ne l i k v h
  · have hc' : containsKey l i = false := by simpa using hc
    rw [dictSet_of_not_contains l i v hc']
    exact lookupKey_append_singleton_ne l i k v h

end FrameLemmas

lemma recordedPresence_loadRow_frame (m : AttendanceManager) (row : List String)
    (k d : String) (h : ∀ nm ps, row ≠ [k, nm, d, ps]) :
    recordedPresence (loadRow m row) k d = recordedPresence m k d := by
  match row with
  | [] => rfl
  | [a] => rfl
  | [a, b] => rfl
  | [a, b, c] => rfl
  | a :: b :: c :: d0 :: e :: t => rfl
  | [i, nm, d0, ps] =>
      by_cases hik : i = k
      · subst hik
        have hd : d0 ≠ d := by
          intro hd0
          exact h nm ps (by rw [hd0])
        by_cases hc : containsKey m.students i = true
        · simp only [loadRow, if_pos hc, recordedPresence]
          rw [lookupKey_updateValue]
          obtain ⟨s, hs⟩ := lookupKey_isSome_of_contains m.students i hc
          rw [hs]
          simp only [Option.map_some', Option.some_bind]
          exact lookupKey_dictSet_ne s.attendance d0 d (parsePresent ps) hd
        · have hc' : containsKey m.students i = false := by simpa using hc
          simp only [loadRow, if_neg hc, recordedPresence]
          have hupd : updateValue [(i, (⟨i, nm, []⟩ : Student))] i
              (fun s => s.mark_attendance d0 (parsePresent ps)) =
              [(i, Student.mark_attendance ⟨i, nm, []⟩ d0 (parsePresent ps))] := by
            simp [updateValue]
          rw [updateValue_append, updateValue_of_not_contains m.students i _ hc',
            lookupKey_append_right _ _ _ hc', hupd, lookupKey_singleton_self,
            lookupKey_eq_none_of_not_contains m.students i hc']
          simp only [Option.some_bind, Option.none_bind]
          rw [show (Student.mark_attendance ⟨i, nm, []⟩ d0 (parsePresent ps)).attendance
              = dictSet [] d0 (parsePresent ps) from rfl,
            lookupKey_dictSet_ne [] d0 d (parsePresent ps) hd]
          rfl
      · by_cases hc : containsKey m.students i = true
        · simp only [loadRow, if_pos hc, recordedPresence]
          rw [lookupKey_updateValue_ne m.students i k _ hik]
        · have hc' : containsKey m.students i = false := by simpa using hc
          simp only [loadRow, if_neg hc, recordedPresence]
          have hupd : updateValue [(i, (⟨i, nm, []⟩ : Student))] i
              (fun s => s.mark_attendance d0 (parsePresent ps)) =
              [(i, Student.mark_attendance ⟨i, nm, []⟩ d0 (parsePresent ps))] := by
            simp [updateValue]
          rw [updateValue_append, updateValue_of_not_contains m.students i _ hc',
            hupd, lookupKey_append_singleton_ne m.students i k _ hik]

lemma recordedPresence_load_frame (m : AttendanceManager) (rows : List (List String))
    (k d : String)
    (h : ∀ row ∈ rows, ∀ nm ps, row ≠ [k, nm, d, ps]) :
    recordedPresence (m.load_from_csv rows) k d = recordedPresence m k d := by
  induction rows generalizing m with
  | nil => rfl
  | cons row rest ih =>
      rw [load_from_csv_cons,
        ih (loadRow m row) (fun r hr => h r (List.mem_cons_of_mem row hr))]
      exact recordedPresence_loadRow_frame m row k d (h row (List.mem_cons_self row rest))

/-- Claim C10: `load_from_csv` merges into the existing roster.  First, the
(id, name) view of the result is the old view extended only by entries whose
ids were not previously present — so no student is removed, no existing
student's name is changed (a row's name field for an already-present id is
ignored), and student creation happens only for fresh ids.  Second, the only
attendance mutations are the per-(id, date) entries set by the 4-field rows of
the input: at every (id, date) pair that no row of the input targets, the
recorded presence is exactly what it was before the load. -/
theorem load_from_csv_merges (m : AttendanceManager) (rows : List (List String)) :
    (∃ ext : List (String × String),
      namesOf (m.load_from_csv rows) = namesOf m ++ ext ∧
      ∀ q ∈ ext, containsKey m.students q.1 = false) ∧
    ∀ k d : String, (∀ row ∈ rows, ∀ nm ps, row ≠ [k, nm, d, ps]) →
      recordedPresence (m.load_from_csv rows) k d = recordedPresence m k d :=
  ⟨namesOf_load_extend m rows,
    fun k d h => recordedPresence_load_frame m rows k d h⟩
